import Mathlib

/-!
Verification of the Filecoin claims importer (main.go of the claims-importer
service).  The Go source is shallowly embedded: pure helpers become Lean
functions, the MongoDB collection becomes a `List DBClaim`, the Lotus chain
RPC and the MongoDB bulk-write driver become explicit environments
(`ChainEnv`, `BulkEnv`) whose fields give the outcome of each external call,
and machine integers (`int64`, `uint64`) become `Int`/`Nat` with explicit
two-power bounds where the code checks ranges.  JSON numbers are modelled as
integers (the dump format carries only integral fields).  Error values in Go
carry messages used only for logging; they are modelled as `Except Unit` /
`Option`.
-/

/-- Model of a decoded JSON value, as produced by Go `encoding/json` for the
dump file.  Numbers are integral (the dump's fields are all integers). -/
inductive Json where
  | null
  | bool (b : Bool)
  | num (n : Int)
  | str (s : String)
  | arr (elems : List Json)
  | obj (fields : List (String × Json))

/-- Go `map[string]any` lookup after decoding a JSON object: for duplicate
keys `encoding/json` keeps the last occurrence, hence the `reverse`. -/
def jsonLookup (fields : List (String × Json)) (k : String) : Option Json :=
  (fields.reverse).lookup k

/-- The reserved CID key of the object form, `{"/": "bafy..."}`. -/
def slashKey : String := "/"

/-- `type cidOrObj string` (main.go). -/
abbrev cidOrObj := String

/-- `type u64OrStr uint64` (main.go); values are below `2 ^ 64`. -/
abbrev u64OrStr := Nat

/-- `type i64OrStr int64` (main.go); values lie in the signed 64-bit range. -/
abbrev i64OrStr := Int

/-- `2 ^ 64`, the number of `uint64` values (`strconv.ParseUint` bound). -/
def uint64Size : Nat := 2 ^ 64

/-- Largest `int64` value (`strconv.ParseInt` upper bound). -/
def int64Max : Int := 2 ^ 63 - 1

/-- Smallest `int64` value (`strconv.ParseInt` lower bound). -/
def int64Min : Int := -(2 ^ 63)

/-- Digit-accumulating core of `strconv.ParseUint(s, 10, 64)`: consumes the
whole character list, failing on any non-digit character. -/
def parseUintDigits : Nat → List Char → Option Nat
  | acc, [] => some acc
  | acc, c :: cs =>
    if c.isDigit then parseUintDigits (acc * 10 + (c.toNat - 48)) cs else none

/-- `strconv.ParseUint(s, 10, 64)`: no sign, decimal digits only, value below
`2 ^ 64`; `none` models the error return. -/
def ParseUint64 (s : String) : Option Nat :=
  match s.data with
  | [] => none
  | c :: rest =>
    match parseUintDigits 0 (c :: rest) with
    | some v => if v < uint64Size then some v else none
    | none => none

/-- `strconv.ParseInt(s, 10, 64)`: optional sign, decimal digits, value in
the signed 64-bit range; `none` models the error return. -/
def ParseInt64 (s : String) : Option Int :=
  match s.data with
  | [] => none
  | c :: rest =>
    let signed := if c == '-' then (true, rest) else
      if c == '+' then (false, rest) else (false, c :: rest)
    match signed.2 with
    | [] => none
    | d :: ds =>
      match parseUintDigits 0 (d :: ds) with
      | some v =>
        let i : Int := if signed.1 then -(v : Int) else (v : Int)
        if int64Min ≤ i ∧ i ≤ int64Max then some i else none
      | none => none

/-- `func (c *cidOrObj) UnmarshalJSON` (main.go): accepts a bare JSON string,
or an object carrying the string under the reserved key `"/"`; everything
else is an error (including non-object values, which fail Go's unmarshal
into `map[string]any`, and objects whose `"/"` value is not a string). -/
def cidOrObj.UnmarshalJSON : Json → Except Unit cidOrObj
  | .str s => .ok s
  | .obj fields =>
    match jsonLookup fields slashKey with
    | some (.str s) => .ok s
    | _ => .error ()
  | _ => .error ()

/-- `func (u *u64OrStr) UnmarshalJSON` (main.go): a value not starting with a
quote is unmarshalled as a `uint64` number; a string is parsed with
`strconv.ParseUint(s, 10, 64)`. -/
def u64OrStr.UnmarshalJSON : Json → Except Unit u64OrStr
  | .str s =>
    match ParseUint64 s with
    | some x => .ok x
    | none => .error ()
  | .num n => if 0 ≤ n ∧ n < (uint64Size : Int) then .ok n.toNat else .error ()
  | _ => .error ()

/-- `func (i *i64OrStr) UnmarshalJSON` (main.go): a value not starting with a
quote is unmarshalled as an `int64` number; a string is parsed with
`strconv.ParseInt(s, 10, 64)`. -/
def i64OrStr.UnmarshalJSON : Json → Except Unit i64OrStr
  | .str s =>
    match ParseInt64 s with
    | some x => .ok x
    | none => .error ()
  | .num n => if int64Min ≤ n ∧ n ≤ int64Max then .ok n else .error ()
  | _ => .error ()

/-- `type filecoinClaim struct` (main.go): one decoded dump record. -/
structure filecoinClaim where
  Provider : u64OrStr
  Client : u64OrStr
  Data : cidOrObj
  Size : i64OrStr
  TermMin : i64OrStr
  TermMax : i64OrStr
  TermStart : i64OrStr
  Sector : u64OrStr
deriving DecidableEq, Repr

/-- `type DBClaim struct` (main.go): the MongoDB document.  `time.Time` is
modelled as a `Nat` tick; the optional `Meta` map is never set on the ingest
path and is omitted. -/
structure DBClaim where
  ClaimID : Int
  ProviderID : Int
  ClientID : Int
  ClientAddr : String
  DataCID : String
  Size : Int
  TermMin : Int
  TermMax : Int
  TermStart : Int
  Sector : Nat
  MinerAddr : String
  UpdatedAt : Nat
deriving DecidableEq, Repr

/-- Go cast `int64(u)` of a `uint64` value: wraps around `2 ^ 64`. -/
def int64OfUInt64 (n : Nat) : Int :=
  if n < 2 ^ 63 then (n : Int) else (n : Int) - 2 ^ 64

/-- `func claimKey(providerID, dataCID, sector, termStart)` (main.go):
`fmt.Sprintf` of the four uniqueness-tuple fields joined by pipes. -/
def claimKey (providerID : Int) (dataCID : String) (sector : Nat) (termStart : Int) : String :=
  toString providerID ++ "|" ++ dataCID ++ "|" ++ toString sector ++ "|" ++ toString termStart

/-- The uniqueness key of a document, as computed at both call sites of
`claimKey` in main.go. -/
def keyOf (c : DBClaim) : String :=
  claimKey c.ProviderID c.DataCID c.Sector c.TermStart

/-- Whitespace recognised by `fmt.Sscan` when skipping between tokens. -/
def isSpaceChar (c : Char) : Bool :=
  c == ' ' || c == '\t' || c == '\n' || c == '\r'

/-- Core of `fmt.Sscan(claimIDStr, &claimID)` for an `int64` operand in its
decimal form: skip leading spaces, optional sign, then the longest digit
run; `none` models a scan error (no digits, or 64-bit range overflow), in
which case the Go variable keeps its zero value.  Base-prefixed literals
(`0x...`), which `fmt` would also accept, are not modelled; on every input
this model maps to `none` the Go scan fails as well. -/
def sscanInt64core (l : List Char) : Option Int :=
  let l2 := l.dropWhile isSpaceChar
  let signed := match l2 with
    | '-' :: rest => (true, rest)
    | '+' :: rest => (false, rest)
    | rest => (false, rest)
  match signed.2.takeWhile Char.isDigit with
  | [] => none
  | d :: ds =>
    let v := (d :: ds).foldl (fun (a : Nat) c => a * 10 + (c.toNat - 48)) 0
    let i : Int := if signed.1 then -(v : Int) else (v : Int)
    if int64Min ≤ i ∧ i ≤ int64Max then some i else none

/-- `fmt.Sscan(claimIDStr, &claimID)` with the error ignored (main.go,
`loadClaimsFromFileFiltered`): on failure `claimID` stays `0`. -/
def fmtSscanInt64 (s : String) : Int :=
  match sscanInt64core s.data with
  | some v => v
  | none => 0

/-- The empty string: Go zero value of `ClientAddr` (never assigned on the
ingest path). -/
def emptyStr : String := ""

/-- Literal prefix of the derived miner address. -/
def f0str : String := "f0"

/-- `fmt.Sprintf("f0%d", uint64(c.Provider))` (main.go). -/
def minerAddrOf (p : Nat) : String := f0str ++ Nat.repr p

/-- The `DBClaim` literal built for one dump record inside the loop of
`loadClaimsFromFileFiltered` (main.go). -/
def dbClaimOfRecord (now : Nat) (claimIDStr : String) (c : filecoinClaim) : DBClaim :=
  { ClaimID := fmtSscanInt64 claimIDStr
    ProviderID := int64OfUInt64 c.Provider
    ClientID := int64OfUInt64 c.Client
    ClientAddr := emptyStr
    DataCID := c.Data
    Size := c.Size
    TermMin := c.TermMin
    TermMax := c.TermMax
    TermStart := c.TermStart
    Sector := c.Sector
    MinerAddr := minerAddrOf c.Provider
    UpdatedAt := now }

/-- `func loadClaimsFromFileFiltered` (main.go), after the JSON decode: the
decoded `rpc.Result` map is a list of `(claim-id string, record)` pairs;
records whose provider is not in the active set are skipped with `continue`. -/
def loadClaimsFromFileFiltered (result : List (String × filecoinClaim))
    (active : List Nat) (now : Nat) : List DBClaim :=
  result.filterMap fun kc =>
    if kc.2.Provider ∈ active then some (dbClaimOfRecord now kc.1 kc.2) else none

/-- `func loadAllClaimKeysFromDB` (main.go): the uniqueness keys of every
persisted document, built with `claimKey` from the projected four fields. -/
def loadAllClaimKeysFromDB (store : List DBClaim) : List String :=
  store.map keyOf

/-- Whether document `d` matches the bulk-write filter built from claim `c`
(`bson.M` on the four uniqueness-tuple fields, main.go `insertDiffClaims`). -/
def tupleMatches (c d : DBClaim) : Bool :=
  d.ProviderID == c.ProviderID && d.DataCID == c.DataCID &&
    d.Sector == c.Sector && d.TermStart == c.TermStart

/-- MongoDB semantics of one `UpdateOneModel` with `SetUpsert(true)` and
update `{"$setOnInsert": c}`: when a document matches the filter the update
document has no operators outside `$setOnInsert`, so nothing is modified and
nothing is upserted; otherwise `c` is inserted and counted in
`UpsertedCount`. -/
def execOp (store : List DBClaim) (c : DBClaim) : List DBClaim × Nat :=
  if store.any (tupleMatches c) then (store, 0) else (store ++ [c], 1)

/-- Failure model of the MongoDB driver for `coll.BulkWrite`: `opOk bi oi`
tells whether operation `oi` of submitted batch `bi` executes on the server
(an op that fails, e.g. with a duplicate-key error on another index, does
not apply and is not counted); `resOk bi` tells whether the driver returns a
non-nil `BulkWriteResult` for batch `bi` (on a nil result nothing is
credited even if the server applied some operations). -/
structure BulkEnv where
  opOk : Nat → Nat → Bool
  resOk : Nat → Bool

/-- The failure-free driver environment: every operation executes and every
batch returns its result. -/
def envOK : BulkEnv := ⟨fun _ _ => true, fun _ => true⟩

/-- Record of one submitted batch: the operations sent, whether `BulkWrite`
reported an error, and the `UpsertedCount` credited from its result. -/
structure BatchRec where
  ops : List DBClaim
  err : Bool
  credited : Nat
deriving DecidableEq, Repr

/-- Outcome of executing the operations of one batch on the server. -/
structure BatchOut where
  store : List DBClaim
  upserted : Nat
  anyFail : Bool
deriving DecidableEq, Repr

/-- Server-side execution of an unordered batch: each operation either
executes (`execOp`) or fails without applying; `upserted` counts the
documents actually inserted by this batch and `anyFail` records whether some
operation failed. -/
def execBatch (ok : Nat → Bool) (oi : Nat) (store : List DBClaim) :
    List DBClaim → BatchOut
  | [] => ⟨store, 0, false⟩
  | c :: rest =>
    if ok oi then
      let r := execOp store c
      let out := execBatch ok (oi + 1) r.1 rest
      ⟨out.store, r.2 + out.upserted, out.anyFail⟩
    else
      let out := execBatch ok (oi + 1) store rest
      ⟨out.store, out.upserted, true⟩

/-- Mutable state of the loop in `insertDiffClaims` (main.go): the
collection, the pending `batch` slice, the running `inserted` count, the
index of the next submitted batch (for the failure model), and the list of
batches submitted so far. -/
structure RunSt where
  store : List DBClaim
  batch : List DBClaim
  inserted : Nat
  bi : Nat
  trace : List BatchRec
deriving Repr

/-- `flushBatch` closure of `insertDiffClaims` (main.go): an empty batch is a
no-op; otherwise the batch is submitted as one unordered `BulkWrite`, a
returned error is only logged, and when the result is non-nil its
`UpsertedCount` is added to `inserted`.  `flushBatch` always returns `nil`,
so its caller never aborts. -/
def flushBatch (env : BulkEnv) (st : RunSt) : RunSt :=
  if st.batch.isEmpty then st
  else
    let out := execBatch (env.opOk st.bi) 0 st.store st.batch
    let resOk := env.resOk st.bi
    let errFlag := out.anyFail || !resOk
    let credited := if resOk then out.upserted else 0
    { store := out.store
      batch := []
      inserted := st.inserted + credited
      bi := st.bi + 1
      trace := st.trace ++ [⟨st.batch, errFlag, credited⟩] }

/-- One iteration of the claims loop in `insertDiffClaims` (main.go): skip
the claim when its key is already in `existingKeys`; otherwise stamp
`UpdatedAt`, append the upsert model to the batch, and flush once the batch
reaches `bulkSize`. -/
def stepClaim (env : BulkEnv) (bulkSize : Int) (existingKeys : List String)
    (now : Nat) (st : RunSt) (c : DBClaim) : RunSt :=
  if keyOf c ∈ existingKeys then st
  else
    let c2 := { c with UpdatedAt := now }
    let st2 := { st with batch := st.batch ++ [c2] }
    if bulkSize ≤ (st2.batch.length : Int) then flushBatch env st2 else st2

/-- Return value of `insertDiffClaims`: the collection after the run, the
`inserted` count, the returned error (always `none`, mirroring the Go code
whose `flushBatch` never returns a non-nil error), and the submitted-batch
trace. -/
structure InsertResult where
  store : List DBClaim
  inserted : Nat
  err : Option Unit
  trace : List BatchRec
deriving Repr

/-- `func insertDiffClaims` (main.go): early return on an empty claims list,
default bulk size `2000` when the configured one is non-positive, the
claims loop, and a final flush of the leftover batch. -/
def insertDiffClaims (env : BulkEnv) (store : List DBClaim)
    (chainClaims : List DBClaim) (existingKeys : List String)
    (bulkSize : Int) (now : Nat) : InsertResult :=
  if chainClaims.isEmpty then ⟨store, 0, none, []⟩
  else
    let bs := if bulkSize ≤ 0 then 2000 else bulkSize
    let st1 := chainClaims.foldl (stepClaim env bs existingKeys now) ⟨store, [], 0, 0, []⟩
    let st2 := flushBatch env st1
    ⟨st2.store, st2.inserted, none, st2.trace⟩

/-- The claims that the loop of `insertDiffClaims` stages (key not already in
`existingKeys`, `UpdatedAt` stamped), in order. -/
def stagedClaims (existingKeys : List String) (now : Nat) :
    List DBClaim → List DBClaim
  | [] => []
  | c :: cs =>
    if keyOf c ∈ existingKeys then stagedClaims existingKeys now cs
    else { c with UpdatedAt := now } :: stagedClaims existingKeys now cs

/-- Steps 4-6 of `runFromTodayDumpOnce` (main.go): parse-and-filter the
decoded dump, load the existing key set from the store, then upsert the
difference. -/
def runIngest (env : BulkEnv) (result : List (String × filecoinClaim))
    (active : List Nat) (parseNow insertNow : Nat) (bulkSize : Int)
    (store : List DBClaim) : InsertResult :=
  let claimsList := loadClaimsFromFileFiltered result active parseNow
  let existingKeys := loadAllClaimKeysFromDB store
  insertDiffClaims env store claimsList existingKeys bulkSize insertNow

/-- `lotusapi.MinerPower` as used by `hasNonZeroPower`: the raw-byte and
quality-adjusted power of one miner (`big.Int` values). -/
structure MinerPower where
  RawBytePower : Int
  QualityAdjPower : Int
deriving DecidableEq, Repr

/-- `func hasNonZeroPower(p *lotusapi.MinerPower)` (main.go): `nil` has no
power; otherwise either component must be strictly positive. -/
def hasNonZeroPower : Option MinerPower → Bool
  | none => false
  | some p => decide (0 < p.RawBytePower) || decide (0 < p.QualityAdjPower)

/-- Environment of one run's Lotus RPC calls, all pinned to the tipset key of
the head obtained first (`loadActiveProviders`, main.go): outcome of
`ChainHead`, of `StateListMiners`, and per-address outcomes of
`StateMinerPower` (a `nil` power record is `ok none`), `StateLookupID`, and
`address.IDFromAddress`. -/
structure ChainEnv where
  ChainHead : Except Unit Unit
  StateListMiners : Except Unit (List String)
  StateMinerPower : String → Except Unit (Option MinerPower)
  StateLookupID : String → Except Unit String
  IDFromAddress : String → Except Unit Nat

/-- Body of the miner loop in `loadActiveProviders` (main.go): any per-actor
failure (`StateMinerPower`, `StateLookupID`, `IDFromAddress`) or a powerless
miner is skipped with `continue`; otherwise the resolved actor id is added
to the set. -/
def activeStep (env : ChainEnv) (acc : List Nat) (m : String) : List Nat :=
  match env.StateMinerPower m with
  | .error _ => acc
  | .ok mp =>
    if !hasNonZeroPower mp then acc
    else
      match env.StateLookupID m with
      | .error _ => acc
      | .ok idAddr =>
        match env.IDFromAddress idAddr with
        | .error _ => acc
        | .ok id => if id ∈ acc then acc else acc ++ [id]

/-- `func loadActiveProviders` (main.go): a `ChainHead` or `StateListMiners`
failure aborts with an error; otherwise the per-miner loop builds the active
set (a Go map, modelled as a duplicate-free list). -/
def loadActiveProviders (env : ChainEnv) : Except Unit (List Nat) :=
  match env.ChainHead with
  | .error _ => .error ()
  | .ok _ =>
    match env.StateListMiners with
    | .error _ => .error ()
    | .ok miners => .ok (miners.foldl (activeStep env) [])

/-- Outcome of one `os.Stat` call on the dump file. -/
inductive StatRes where
  | ok (size : Int)
  | notExist
  | err
deriving DecidableEq, Repr

/-- `stableCheckRetries` constant of `runFromTodayDumpOnce` (main.go). -/
def stableCheckRetries : Nat := 3

/-- The size-stability loop of `runFromTodayDumpOnce` (main.go): up to
`retries` polls; a stat failure of any kind during the loop is returned as
an error; a size equal to the previous observation declares stability;
otherwise the new size becomes the reference.  `ok false` means the retry
budget was exhausted while the size kept changing. -/
def stabLoop (pollStat : Nat → StatRes) : Nat → Nat → Int → Except Unit Bool
  | 0, _, _ => .ok false
  | retries + 1, i, prevSize =>
    match pollStat i with
    | .ok sz => if sz == prevSize then .ok true else stabLoop pollStat retries (i + 1) sz
    | _ => .error ()

/-- Environment of one `runFromTodayDumpOnce` call: the initial stat of the
dump file, the stats observed by the stability polls (indexed from 1), the
chain environment, the outcome of the JSON decode of the file (`ok` carries
the decoded `rpc.Result` pairs), whether the DB key scan succeeds, the
bulk-write failure model, whether `os.Remove` succeeds, the two `time.Now`
observations, and the configured bulk size. -/
structure RunEnv where
  stat0 : StatRes
  pollStat : Nat → StatRes
  chain : ChainEnv
  decoded : Except Unit (List (String × filecoinClaim))
  keysOk : Bool
  bulk : BulkEnv
  removeOk : Bool
  parseNow : Nat
  insertNow : Nat
  bulkSize : Int

/-- Observable outcome of one `runFromTodayDumpOnce` call: whether it
returned an error, whether the dump file's JSON decode was attempted,
whether the DB key scan was reached, the resulting collection, the inserted
count, and whether the dump file was removed from disk. -/
structure RunResult where
  isErr : Bool
  parsed : Bool
  keysLoaded : Bool
  store : List DBClaim
  inserted : Nat
  deleted : Bool
deriving DecidableEq, Repr

/-- `func runFromTodayDumpOnce` (main.go): stat the dump file (absence is a
silent skip, any other stat failure an error); run the stability loop (an
unstable file is a silent skip); load the active providers (failure aborts,
an empty set is a silent skip); decode and filter the file; load the
existing keys; upsert the difference; finally remove the file, a removal
failure being only logged. -/
def runFromTodayDumpOnce (env : RunEnv) (store : List DBClaim) : RunResult :=
  match env.stat0 with
  | .notExist => ⟨false, false, false, store, 0, false⟩
  | .err => ⟨true, false, false, store, 0, false⟩
  | .ok sz0 =>
    match stabLoop env.pollStat stableCheckRetries 1 sz0 with
    | .error _ => ⟨true, false, false, store, 0, false⟩
    | .ok false => ⟨false, false, false, store, 0, false⟩
    | .ok true =>
      match loadActiveProviders env.chain with
      | .error _ => ⟨true, false, false, store, 0, false⟩
      | .ok active =>
        if active.isEmpty then ⟨false, false, false, store, 0, false⟩
        else
          match env.decoded with
          | .error _ => ⟨true, true, false, store, 0, false⟩
          | .ok result =>
            let claimsList := loadClaimsFromFileFiltered result active env.parseNow
            if !env.keysOk then ⟨true, true, false, store, 0, false⟩
            else
              let existingKeys := loadAllClaimKeysFromDB store
              let r := insertDiffClaims env.bulk store claimsList existingKeys env.bulkSize env.insertNow
              match r.err with
              | some _ => ⟨true, true, true, r.store, r.inserted, false⟩
              | none => ⟨false, true, true, r.store, r.inserted, env.removeOk⟩

/-- Decimal digit list of a natural number (most significant first), mirrors
`Nat.toDigits 10` without fuel. -/
def natDigits (n : Nat) : List Char :=
  if n < 10 then [Nat.digitChar n]
  else natDigits (n / 10) ++ [Nat.digitChar (n % 10)]
decreasing_by exact Nat.div_lt_self (by omega) (by omega)

/-! ### Concrete instances used by the closed theorems below -/

/-- A sample content identifier. -/
def sampleCid : String := "bafyXYZ"

/-- A sample miner address string. -/
def minerOne : String := "f01001"

/-- A miner address whose per-actor calls fail in `cexChainSkip`. -/
def minerBad : String := "f01002"

/-- A top-level dump key that is not a decimal integer. -/
def abcKey : String := "abc"

/-- A numeric top-level dump key. -/
def oneKey : String := "1"

/-- Another numeric top-level dump key. -/
def twoKey : String := "2"

/-- A sample dump record with provider `1001`. -/
def fcSample : filecoinClaim :=
  { Provider := 1001, Client := 5, Data := sampleCid, Size := 100,
    TermMin := 1, TermMax := 2, TermStart := 3, Sector := 7 }

/-- A second sample record, differing from `fcSample` in its sector. -/
def fcSampleB : filecoinClaim := { fcSample with Sector := 8 }

/-- A persisted sample document. -/
def dbExisting : DBClaim :=
  { ClaimID := 1, ProviderID := 1001, ClientID := 5, ClientAddr := emptyStr,
    DataCID := sampleCid, Size := 100, TermMin := 1, TermMax := 2, TermStart := 3,
    Sector := 7, MinerAddr := minerOne, UpdatedAt := 11 }

/-- A staged document bearing the same uniqueness tuple as `dbExisting` but a
different claim id and timestamp. -/
def dbIncoming : DBClaim := { dbExisting with ClaimID := 2, UpdatedAt := 99 }

/-- A bulk-write environment in which the second operation of the first
batch fails while the driver still returns the partial result. -/
def envPartial : BulkEnv := ⟨fun bi oi => !(bi == 0 && oi == 1), fun _ => true⟩

/-- One `insertDiffClaims` run against an empty store in which the only
batch reports an error after a partial success. -/
def cexRun : InsertResult :=
  insertDiffClaims envPartial []
    [dbClaimOfRecord 5 oneKey fcSample, dbClaimOfRecord 5 twoKey fcSampleB] [] 2 7

/-- A chain environment with a single powered miner resolving to id `1001`. -/
def cexChainActive : ChainEnv :=
  { ChainHead := .ok ()
    StateListMiners := .ok [minerOne]
    StateMinerPower := fun _ => .ok (some ⟨1, 1⟩)
    StateLookupID := fun m => .ok m
    IDFromAddress := fun _ => .ok 1001 }

/-- A chain environment whose `ChainHead` call fails. -/
def cexChainHeadErr : ChainEnv := { cexChainActive with ChainHead := .error () }

/-- A chain environment in which only `minerBad`'s power lookup fails. -/
def cexChainSkip : ChainEnv :=
  { cexChainActive with
    StateMinerPower := fun m => if m == minerBad then .error () else .ok (some ⟨1, 1⟩) }

/-- A chain environment that lists no miners, yielding an empty active set. -/
def cexChainEmpty : ChainEnv := { cexChainActive with StateListMiners := .ok [] }

/-- A run environment whose dump file changes size between polls 1 and 2
(10 → 20 → 30) and then stabilizes (30 = 30) within the retry budget. -/
def cexEnvStabilizes : RunEnv :=
  { stat0 := .ok 10
    pollStat := fun i => if i == 1 then .ok 20 else .ok 30
    chain := cexChainActive
    decoded := .ok [(oneKey, fcSample)]
    keysOk := true
    bulk := envOK
    removeOk := true
    parseNow := 1
    insertNow := 2
    bulkSize := 0 }

/-- A run environment whose dump file never stabilizes within the retry
budget (10 → 20 → 30 → 40). -/
def cexEnvUnstable : RunEnv :=
  { cexEnvStabilizes with
    pollStat := fun i => if i == 1 then .ok 20 else if i == 2 then .ok 30 else .ok 40 }

/-- A run environment whose dump file is absent. -/
def cexEnvNotFound : RunEnv := { cexEnvStabilizes with stat0 := .notExist }

/-- A run environment with a stable dump file but an empty active set. -/
def cexEnvEmptyActive : RunEnv :=
  { cexEnvStabilizes with
    stat0 := .ok 5
    pollStat := fun _ => .ok 5
    chain := cexChainEmpty }

/-! ### Basic facts about keys and single upsert operations -/

theorem keyOf_withUpdatedAt (c : DBClaim) (n : Nat) :
    keyOf { c with UpdatedAt := n } = keyOf c := rfl

theorem keyOf_eq_of_tupleMatches {c d : DBClaim} (h : tupleMatches c d = true) :
    keyOf d = keyOf c := by
  simp only [tupleMatches, Bool.and_eq_true, beq_iff_eq] at h
  obtain ⟨⟨⟨h1, h2⟩, h3⟩, h4⟩ := h
  simp [keyOf, claimKey, h1, h2, h3, h4]

theorem keys_mono_append (s t : List DBClaim) (k : String)
    (h : k ∈ loadAllClaimKeysFromDB s) : k ∈ loadAllClaimKeysFromDB (s ++ t) := by
  unfold loadAllClaimKeysFromDB at h ⊢
  rw [List.map_append]
  exact List.mem_append_left _ h

theorem execOp_store_eq (s : List DBClaim) (c : DBClaim) :
    ∃ t, (execOp s c).1 = s ++ t ∧ (execOp s c).2 = t.length := by
  unfold execOp
  by_cases h : s.any (tupleMatches c) = true
  · exact ⟨[], by simp [h]⟩
  · exact ⟨[c], by simp [h]⟩

theorem keyOf_mem_execOp (s : List DBClaim) (c : DBClaim) :
    keyOf c ∈ loadAllClaimKeysFromDB (execOp s c).1 := by
  unfold execOp
  by_cases h : s.any (tupleMatches c) = true
  · simp only [if_pos h]
    rw [List.any_eq_true] at h
    obtain ⟨d, hd, hm⟩ := h
    exact List.mem_map.mpr ⟨d, hd, keyOf_eq_of_tupleMatches hm⟩
  · simp only [if_neg h]
    simp [loadAllClaimKeysFromDB]

theorem execOp_prov (s : List DBClaim) (c : DBClaim) :
    ∀ d ∈ (execOp s c).1, d ∈ s ∨ d = c := by
  unfold execOp
  by_cases h : s.any (tupleMatches c) = true
  · simp only [if_pos h]
    exact fun d hd => Or.inl hd
  · simp only [if_neg h]
    intro d hd
    rcases List.mem_append.mp hd with hd | hd
    · exact Or.inl hd
    · exact Or.inr (List.mem_singleton.mp hd)

/-! ### Facts about executing one batch -/

theorem execBatch_store_eq (ok : Nat → Bool) :
    ∀ (batch : List DBClaim) (oi : Nat) (s : List DBClaim),
      ∃ t, (execBatch ok oi s batch).store = s ++ t ∧
        (execBatch ok oi s batch).upserted = t.length := by
  intro batch
  induction batch with
  | nil => exact fun oi s => ⟨[], by simp [execBatch]⟩
  | cons c rest ih =>
    intro oi s
    by_cases h : ok oi = true
    · obtain ⟨t1, ht1, hc1⟩ := execOp_store_eq s c
      obtain ⟨t2, ht2, hc2⟩ := ih (oi + 1) (execOp s c).1
      refine ⟨t1 ++ t2, ?_, ?_⟩
      · simp only [execBatch, if_pos h]
        rw [ht2, ht1, List.append_assoc]
      · simp only [execBatch, if_pos h]
        rw [hc2, hc1, List.length_append]
    · obtain ⟨t2, ht2, hc2⟩ := ih (oi + 1) s
      refine ⟨t2, ?_, ?_⟩
      · simp only [execBatch, if_neg h]
        exact ht2
      · simp only [execBatch, if_neg h]
        exact hc2

theorem execBatch_prov (ok : Nat → Bool) :
    ∀ (batch : List DBClaim) (oi : Nat) (s : List DBClaim),
      ∀ d ∈ (execBatch ok oi s batch).store, d ∈ s ∨ d ∈ batch := by
  intro batch
  induction batch with
  | nil =>
    intro oi s d hd
    simp only [execBatch] at hd
    exact Or.inl hd
  | cons c rest ih =>
    intro oi s d hd
    by_cases h : ok oi = true
    · simp only [execBatch, if_pos h] at hd
      rcases ih (oi + 1) (execOp s c).1 d hd with hd2 | hd2
      · rcases execOp_prov s c d hd2 with hd3 | hd3
        · exact Or.inl hd3
        · exact Or.inr (by simp [hd3])
      · exact Or.inr (List.mem_cons_of_mem _ hd2)
    · simp only [execBatch, if_neg h] at hd
      rcases ih (oi + 1) s d hd with hd2 | hd2
      · exact Or.inl hd2
      · exact Or.inr (List.mem_cons_of_mem _ hd2)

theorem keyOf_mem_execBatch (ok : Nat → Bool) (hok : ∀ i, ok i = true) :
    ∀ (batch : List DBClaim) (oi : Nat) (s : List DBClaim),
      ∀ c ∈ batch, keyOf c ∈ loadAllClaimKeysFromDB (execBatch ok oi s batch).store := by
  intro batch
  induction batch with
  | nil => simp
  | cons b rest ih =>
    intro oi s c hc
    simp only [execBatch, if_pos (hok oi)]
    rcases List.mem_cons.mp hc with rfl | hc
    · obtain ⟨t, ht, _⟩ := execBatch_store_eq ok rest (oi + 1) (execOp s c).1
      rw [ht]
      exact keys_mono_append _ _ _ (keyOf_mem_execOp s c)
    · exact ih (oi + 1) (execOp s b).1 c hc

/-! ### Facts about `flushBatch` -/

theorem flushBatch_batch_nil (env : BulkEnv) (st : RunSt) :
    (flushBatch env st).batch = [] := by
  by_cases h : st.batch = []
  · simp [flushBatch, h]
  · simp [flushBatch, h]

theorem flushBatch_growth (env : BulkEnv) (st : RunSt) :
    ∃ t, (flushBatch env st).store = st.store ++ t ∧
      (flushBatch env st).inserted ≤ st.inserted + t.length := by
  by_cases h : st.batch = []
  · refine ⟨[], ?_, ?_⟩ <;> simp [flushBatch, h]
  · obtain ⟨t, ht, hc⟩ := execBatch_store_eq (env.opOk st.bi) st.batch 0 st.store
    refine ⟨t, ?_, ?_⟩
    · simp [flushBatch, h, ht]
    · by_cases hr : env.resOk st.bi = true
      · simp [flushBatch, h, hr, hc]
      · simp [flushBatch, h, hr]

theorem flushBatch_prov (env : BulkEnv) (st : RunSt) :
    ∀ d ∈ (flushBatch env st).store, d ∈ st.store ∨ d ∈ st.batch := by
  unfold flushBatch
  by_cases h : st.batch.isEmpty = true
  · simp only [if_pos h]
    exact fun d hd => Or.inl hd
  · simp only [if_neg h]
    exact execBatch_prov (env.opOk st.bi) st.batch 0 st.store

theorem flushBatch_keys (st : RunSt) (k : String)
    (h : k ∈ loadAllClaimKeysFromDB st.store ∨ k ∈ loadAllClaimKeysFromDB st.batch) :
    k ∈ loadAllClaimKeysFromDB (flushBatch envOK st).store := by
  unfold flushBatch
  by_cases he : st.batch.isEmpty = true
  · simp only [if_pos he]
    rcases h with h | h
    · exact h
    · rw [List.isEmpty_iff.mp he] at h
      simp [loadAllClaimKeysFromDB] at h
  · simp only [if_neg he]
    rcases h with h | h
    · obtain ⟨t, ht, _⟩ := execBatch_store_eq (envOK.opOk st.bi) st.batch 0 st.store
      rw [ht]
      exact keys_mono_append _ _ _ h
    · obtain ⟨c, hc, hk⟩ := List.mem_map.mp h
      rw [← hk]
      exact keyOf_mem_execBatch (envOK.opOk st.bi) (fun _ => rfl) st.batch 0 st.store c hc

theorem flushBatch_joined (env : BulkEnv) (st : RunSt) :
    ((flushBatch env st).trace.map BatchRec.ops).flatten ++ (flushBatch env st).batch
      = (st.trace.map BatchRec.ops).flatten ++ st.batch := by
  by_cases h : st.batch = []
  · simp [flushBatch, h]
  · simp [flushBatch, h]

/-! ### Facts about `stepClaim` and the claims loop -/

theorem stepClaim_cover (bs : Int) (ek : List String) (now : Nat) (st : RunSt)
    (c : DBClaim) (k : String)
    (h : k ∈ loadAllClaimKeysFromDB st.store ∨ k ∈ loadAllClaimKeysFromDB st.batch) :
    k ∈ loadAllClaimKeysFromDB (stepClaim envOK bs ek now st c).store ∨
      k ∈ loadAllClaimKeysFromDB (stepClaim envOK bs ek now st c).batch := by
  unfold stepClaim
  by_cases hk : keyOf c ∈ ek
  · simp only [if_pos hk]
    exact h
  · simp only [if_neg hk]
    by_cases hb : bs ≤ ((st.batch ++ [{ c with UpdatedAt := now }]).length : Int)
    · simp only [if_pos hb]
      left
      apply flushBatch_keys
      rcases h with h | h
      · exact Or.inl h
      · exact Or.inr (keys_mono_append _ _ _ h)
    · simp only [if_neg hb]
      rcases h with h | h
      · exact Or.inl h
      · exact Or.inr (keys_mono_append _ _ _ h)

theorem stepClaim_self (bs : Int) (ek : List String) (now : Nat) (st : RunSt)
    (c : DBClaim) :
    keyOf c ∈ ek ∨
      keyOf c ∈ loadAllClaimKeysFromDB (stepClaim envOK bs ek now st c).store ∨
      keyOf c ∈ loadAllClaimKeysFromDB (stepClaim envOK bs ek now st c).batch := by
  by_cases hk : keyOf c ∈ ek
  · exact Or.inl hk
  · right
    unfold stepClaim
    simp only [if_neg hk]
    have hmem : keyOf c ∈ loadAllClaimKeysFromDB (st.batch ++ [{ c with UpdatedAt := now }]) := by
      unfold loadAllClaimKeysFromDB
      rw [List.map_append]
      apply List.mem_append_right
      simp [keyOf_withUpdatedAt]
    by_cases hb : bs ≤ ((st.batch ++ [{ c with UpdatedAt := now }]).length : Int)
    · simp only [if_pos hb]
      left
      exact flushBatch_keys _ _ (Or.inr hmem)
    · simp only [if_neg hb]
      right
      exact hmem

theorem foldl_cover (bs : Int) (ek : List String) (now : Nat) :
    ∀ (claims : List DBClaim) (st : RunSt) (k : String),
      (k ∈ loadAllClaimKeysFromDB st.store ∨ k ∈ loadAllClaimKeysFromDB st.batch) →
      (k ∈ loadAllClaimKeysFromDB (claims.foldl (stepClaim envOK bs ek now) st).store ∨
        k ∈ loadAllClaimKeysFromDB (claims.foldl (stepClaim envOK bs ek now) st).batch) := by
  intro claims
  induction claims with
  | nil => exact fun st k h => h
  | cons c rest ih =>
    intro st k h
    exact ih (stepClaim envOK bs ek now st c) k (stepClaim_cover bs ek now st c k h)

theorem foldl_claims_covered (bs : Int) (ek : List String) (now : Nat) :
    ∀ (claims : List DBClaim) (st : RunSt) (c : DBClaim), c ∈ claims →
      keyOf c ∈ ek ∨
        keyOf c ∈ loadAllClaimKeysFromDB (claims.foldl (stepClaim envOK bs ek now) st).store ∨
        keyOf c ∈ loadAllClaimKeysFromDB (claims.foldl (stepClaim envOK bs ek now) st).batch := by
  intro claims
  induction claims with
  | nil => simp
  | cons b rest ih =>
    intro st c hc
    rcases List.mem_cons.mp hc with rfl | hc
    · rcases stepClaim_self bs ek now st c with h | h
      · exact Or.inl h
      · exact Or.inr (foldl_cover bs ek now rest (stepClaim envOK bs ek now st c) (keyOf c) h)
    · exact ih (stepClaim envOK bs ek now st b) c hc

theorem stepClaim_growth (env : BulkEnv) (bs : Int) (ek : List String) (now : Nat)
    (st : RunSt) (c : DBClaim) :
    ∃ t, (stepClaim env bs ek now st c).store = st.store ++ t ∧
      (stepClaim env bs ek now st c).inserted ≤ st.inserted + t.length := by
  unfold stepClaim
  by_cases hk : keyOf c ∈ ek
  · exact ⟨[], by simp [hk]⟩
  · simp only [if_neg hk]
    by_cases hb : bs ≤ ((st.batch ++ [{ c with UpdatedAt := now }]).length : Int)
    · simp only [if_pos hb]
      exact flushBatch_growth env _
    · simp only [if_neg hb]
      exact ⟨[], (List.append_nil _).symm, Nat.le_refl _⟩

theorem foldl_growth (env : BulkEnv) (bs : Int) (ek : List String) (now : Nat) :
    ∀ (claims : List DBClaim) (st : RunSt),
      ∃ t, (claims.foldl (stepClaim env bs ek now) st).store = st.store ++ t ∧
        (claims.foldl (stepClaim env bs ek now) st).inserted ≤ st.inserted + t.length := by
  intro claims
  induction claims with
  | nil => exact fun st => ⟨[], by simp⟩
  | cons c rest ih =>
    intro st
    obtain ⟨t1, h1, h1i⟩ := stepClaim_growth env bs ek now st c
    obtain ⟨t2, h2, h2i⟩ := ih (stepClaim env bs ek now st c)
    refine ⟨t1 ++ t2, ?_, ?_⟩
    · simp only [List.foldl_cons]
      rw [h2, h1, List.append_assoc]
    · simp only [List.foldl_cons]
      have hl : (t1 ++ t2).length = t1.length + t2.length := List.length_append _ _
      omega

theorem foldl_skip_all (env : BulkEnv) (bs : Int) (ek : List String) (now : Nat) :
    ∀ (claims : List DBClaim) (st : RunSt), (∀ c ∈ claims, keyOf c ∈ ek) →
      claims.foldl (stepClaim env bs ek now) st = st := by
  intro claims
  induction claims with
  | nil => exact fun st _ => rfl
  | cons c rest ih =>
    intro st h
    have hc : keyOf c ∈ ek := h c (List.mem_cons_self c rest)
    have hstep : stepClaim env bs ek now st c = st := by
      unfold stepClaim
      simp [hc]
    rw [List.foldl_cons, hstep]
    exact ih st fun d hd => h d (List.mem_cons_of_mem c hd)

theorem flushBatch_of_empty (env : BulkEnv) (st : RunSt) (h : st.batch = []) :
    flushBatch env st = st := by
  simp [flushBatch, h]

theorem stepClaim_joined (env : BulkEnv) (bs : Int) (ek : List String) (now : Nat)
    (st : RunSt) (c : DBClaim) :
    ((stepClaim env bs ek now st c).trace.map BatchRec.ops).flatten ++
        (stepClaim env bs ek now st c).batch
      = ((st.trace.map BatchRec.ops).flatten ++ st.batch) ++
          (if keyOf c ∈ ek then [] else [{ c with UpdatedAt := now }]) := by
  unfold stepClaim
  by_cases hk : keyOf c ∈ ek
  · simp [hk]
  · simp only [if_neg hk]
    by_cases hb : bs ≤ ((st.batch ++ [{ c with UpdatedAt := now }]).length : Int)
    · simp only [if_pos hb]
      rw [flushBatch_joined]
      simp [hk, List.append_assoc]
    · simp only [if_neg hb]
      simp [hk, List.append_assoc]

theorem foldl_joined (env : BulkEnv) (bs : Int) (ek : List String) (now : Nat) :
    ∀ (claims : List DBClaim) (st : RunSt),
      ((claims.foldl (stepClaim env bs ek now) st).trace.map BatchRec.ops).flatten ++
          (claims.foldl (stepClaim env bs ek now) st).batch
        = ((st.trace.map BatchRec.ops).flatten ++ st.batch) ++ stagedClaims ek now claims := by
  intro claims
  induction claims with
  | nil => intro st; simp [stagedClaims]
  | cons c rest ih =>
    intro st
    rw [List.foldl_cons, ih, stepClaim_joined]
    by_cases hk : keyOf c ∈ ek <;> simp [stagedClaims, hk, List.append_assoc]

theorem stepClaim_prov (env : BulkEnv) (bs : Int) (ek : List String) (now : Nat)
    (st : RunSt) (c : DBClaim) :
    (∀ d ∈ (stepClaim env bs ek now st c).store,
        d ∈ st.store ∨ d ∈ st.batch ∨ d = { c with UpdatedAt := now }) ∧
    (∀ d ∈ (stepClaim env bs ek now st c).batch,
        d ∈ st.batch ∨ d = { c with UpdatedAt := now }) := by
  unfold stepClaim
  by_cases hk : keyOf c ∈ ek
  · simp only [if_pos hk]
    exact ⟨fun d hd => Or.inl hd, fun d hd => Or.inl hd⟩
  · simp only [if_neg hk]
    by_cases hb : bs ≤ ((st.batch ++ [{ c with UpdatedAt := now }]).length : Int)
    · simp only [if_pos hb]
      constructor
      · intro d hd
        rcases flushBatch_prov env _ d hd with hd | hd
        · exact Or.inl hd
        · rcases List.mem_append.mp hd with hd | hd
          · exact Or.inr (Or.inl hd)
          · exact Or.inr (Or.inr (List.mem_singleton.mp hd))
      · intro d hd
        rw [flushBatch_batch_nil] at hd
        cases hd
    · simp only [if_neg hb]
      constructor
      · exact fun d hd => Or.inl hd
      · intro d hd
        rcases List.mem_append.mp hd with hd | hd
        · exact Or.inl hd
        · exact Or.inr (List.mem_singleton.mp hd)

theorem foldl_prov (env : BulkEnv) (bs : Int) (ek : List String) (now : Nat)
    (Q : DBClaim → Prop) (s0 : List DBClaim) :
    ∀ (claims : List DBClaim) (st : RunSt),
      (∀ c ∈ claims, Q { c with UpdatedAt := now }) →
      (∀ d ∈ st.store, d ∈ s0 ∨ Q d) → (∀ d ∈ st.batch, Q d) →
      (∀ d ∈ (claims.foldl (stepClaim env bs ek now) st).store, d ∈ s0 ∨ Q d) ∧
      (∀ d ∈ (claims.foldl (stepClaim env bs ek now) st).batch, Q d) := by
  intro claims
  induction claims with
  | nil => exact fun st _ h1 h2 => ⟨h1, h2⟩
  | cons c rest ih =>
    intro st hQ h1 h2
    rw [List.foldl_cons]
    apply ih
    · exact fun d hd => hQ d (List.mem_cons_of_mem c hd)
    · intro d hd
      rcases (stepClaim_prov env bs ek now st c).1 d hd with hd2 | hd2 | hd2
      · exact h1 d hd2
      · exact Or.inr (h2 d hd2)
      · exact Or.inr (hd2 ▸ hQ c (List.mem_cons_self c rest))
    · intro d hd
      rcases (stepClaim_prov env bs ek now st c).2 d hd with hd2 | hd2
      · exact h2 d hd2
      · exact hd2 ▸ hQ c (List.mem_cons_self c rest)

/-! ### Top-level facts about `insertDiffClaims` -/

theorem insertDiffClaims_growth (env : BulkEnv) (store claims : List DBClaim)
    (ek : List String) (bs : Int) (now : Nat) :
    ∃ t, (insertDiffClaims env store claims ek bs now).store = store ++ t ∧
      (insertDiffClaims env store claims ek bs now).inserted ≤ t.length := by
  unfold insertDiffClaims
  by_cases he : claims.isEmpty = true
  · simp only [if_pos he]
    exact ⟨[], (List.append_nil _).symm, Nat.le_refl _⟩
  · simp only [if_neg he]
    obtain ⟨t1, h1, h1i⟩ :=
      foldl_growth env (if bs ≤ 0 then 2000 else bs) ek now claims ⟨store, [], 0, 0, []⟩
    obtain ⟨t2, h2, h2i⟩ :=
      flushBatch_growth env
        (claims.foldl (stepClaim env (if bs ≤ 0 then 2000 else bs) ek now) ⟨store, [], 0, 0, []⟩)
    refine ⟨t1 ++ t2, ?_, ?_⟩
    · show (flushBatch env _).store = _
      rw [h2, h1]
      simp [List.append_assoc]
    · show (flushBatch env _).inserted ≤ _
      have hl : (t1 ++ t2).length = t1.length + t2.length := List.length_append _ _
      simp only [RunSt.store] at h1i
      omega

theorem insertDiffClaims_no_new (env : BulkEnv) (store claims : List DBClaim)
    (ek : List String) (bs : Int) (now : Nat) (h : ∀ c ∈ claims, keyOf c ∈ ek) :
    insertDiffClaims env store claims ek bs now = ⟨store, 0, none, []⟩ := by
  unfold insertDiffClaims
  by_cases he : claims.isEmpty = true
  · simp only [if_pos he]
  · simp only [if_neg he]
    rw [foldl_skip_all env (if bs ≤ 0 then 2000 else bs) ek now claims ⟨store, [], 0, 0, []⟩ h]
    rw [flushBatch_of_empty env ⟨store, [], 0, 0, []⟩ rfl]

theorem insertDiffClaims_trace_eq (env : BulkEnv) (store claims : List DBClaim)
    (ek : List String) (bs : Int) (now : Nat) :
    ((insertDiffClaims env store claims ek bs now).trace.map BatchRec.ops).flatten
      = stagedClaims ek now claims := by
  unfold insertDiffClaims
  by_cases he : claims.isEmpty = true
  · simp only [if_pos he]
    rw [List.isEmpty_iff.mp he]
    simp [stagedClaims]
  · simp only [if_neg he]
    have h1 :=
      foldl_joined env (if bs ≤ 0 then 2000 else bs) ek now claims ⟨store, [], 0, 0, []⟩
    have h2 :=
      flushBatch_joined env
        (claims.foldl (stepClaim env (if bs ≤ 0 then 2000 else bs) ek now) ⟨store, [], 0, 0, []⟩)
    have h3 :=
      flushBatch_batch_nil env
        (claims.foldl (stepClaim env (if bs ≤ 0 then 2000 else bs) ek now) ⟨store, [], 0, 0, []⟩)
    rw [h3, List.append_nil] at h2
    show ((flushBatch env _).trace.map BatchRec.ops).flatten = _
    rw [h2, h1]
    simp

theorem insertDiffClaims_prov (env : BulkEnv) (store claims : List DBClaim)
    (ek : List String) (bs : Int) (now : Nat) (Q : DBClaim → Prop)
    (hQ : ∀ c ∈ claims, Q { c with UpdatedAt := now }) :
    ∀ d ∈ (insertDiffClaims env store claims ek bs now).store, d ∈ store ∨ Q d := by
  unfold insertDiffClaims
  by_cases he : claims.isEmpty = true
  · simp only [if_pos he]
    exact fun d hd => Or.inl hd
  · simp only [if_neg he]
    intro d hd
    have hfold :=
      foldl_prov env (if bs ≤ 0 then 2000 else bs) ek now Q store claims ⟨store, [], 0, 0, []⟩
        hQ (fun d hd => Or.inl hd) (by intro d hd; cases hd)
    have hd2 : d ∈ (flushBatch env
        (claims.foldl (stepClaim env (if bs ≤ 0 then 2000 else bs) ek now)
          ⟨store, [], 0, 0, []⟩)).store := hd
    rcases flushBatch_prov env _ d hd2 with hd3 | hd3
    · exact hfold.1 d hd3
    · exact Or.inr (hfold.2 d hd3)

theorem insertDiffClaims_covers (store claims : List DBClaim) (ek : List String)
    (bs : Int) (now : Nat) (c : DBClaim) (hc : c ∈ claims) :
    keyOf c ∈ ek ∨
      keyOf c ∈ loadAllClaimKeysFromDB (insertDiffClaims envOK store claims ek bs now).store := by
  unfold insertDiffClaims
  have hne : ¬ claims.isEmpty = true := by
    cases claims with
    | nil => cases hc
    | cons a l => simp
  simp only [if_neg hne]
  rcases foldl_claims_covered (if bs ≤ 0 then 2000 else bs) ek now claims
      ⟨store, [], 0, 0, []⟩ c hc with h | h | h
  · exact Or.inl h
  · exact Or.inr (flushBatch_keys _ _ (Or.inl h))
  · exact Or.inr (flushBatch_keys _ _ (Or.inr h))

theorem insertDiffClaims_err_none (env : BulkEnv) (store claims : List DBClaim)
    (ek : List String) (bs : Int) (now : Nat) :
    (insertDiffClaims env store claims ek bs now).err = none := by
  unfold insertDiffClaims
  by_cases he : claims.isEmpty = true
  · simp only [if_pos he]
  · simp only [if_neg he]

/-! ### Facts about the parse-and-filter stage -/

theorem mem_loadClaimsFromFileFiltered {result : List (String × filecoinClaim)}
    {active : List Nat} {now : Nat} {d : DBClaim} :
    d ∈ loadClaimsFromFileFiltered result active now ↔
      ∃ kc ∈ result, kc.2.Provider ∈ active ∧ d = dbClaimOfRecord now kc.1 kc.2 := by
  unfold loadClaimsFromFileFiltered
  rw [List.mem_filterMap]
  constructor
  · rintro ⟨kc, hm, hf⟩
    by_cases h : kc.2.Provider ∈ active
    · rw [if_pos h] at hf
      exact ⟨kc, hm, h, (Option.some_inj.mp hf).symm⟩
    · rw [if_neg h] at hf
      cases hf
  · rintro ⟨kc, hm, h, rfl⟩
    exact ⟨kc, hm, by rw [if_pos h]⟩

theorem loadClaimsFromFileFiltered_eq (result : List (String × filecoinClaim))
    (active : List Nat) (now : Nat) :
    loadClaimsFromFileFiltered result active now
      = (result.filter fun kc => decide (kc.2.Provider ∈ active)).map
          fun kc => dbClaimOfRecord now kc.1 kc.2 := by
  induction result with
  | nil => rfl
  | cons kc rest ih =>
    by_cases h : kc.2.Provider ∈ active
    · simp only [loadClaimsFromFileFiltered, List.filterMap_cons, List.filter_cons] at ih ⊢
      simp [h, ih]
    · simp only [loadClaimsFromFileFiltered, List.filterMap_cons, List.filter_cons] at ih ⊢
      simp [h, ih]

/-! ### Claim theorems -/

/-- Claim C1: idempotence of ingestion.  For every decoded dump, active set,
initial store and configuration, a failure-free run of the ingest pipeline
(steps 4-6 of `runFromTodayDumpOnce`) followed by a second run of the same
pipeline on the unchanged dump and the same active set leaves the store
unchanged and reports zero inserts on the second run, whatever the driver
environment of the second run: every key staged or written by the first run
is found in the existing-key index rebuilt from the store at the start of
the second run, so every candidate is discarded before staging. -/
theorem ingest_idempotent (result : List (String × filecoinClaim)) (active : List Nat)
    (store : List DBClaim) (bs : Int) (t1 t1' t2 t2' : Nat) (env2 : BulkEnv) :
    (runIngest env2 result active t2 t2' bs
        (runIngest envOK result active t1 t1' bs store).store).store
      = (runIngest envOK result active t1 t1' bs store).store
    ∧ (runIngest env2 result active t2 t2' bs
        (runIngest envOK result active t1 t1' bs store).store).inserted = 0
    ∧ ∀ c ∈ loadClaimsFromFileFiltered result active t2,
        keyOf c ∈ loadAllClaimKeysFromDB (runIngest envOK result active t1 t1' bs store).store := by
  have hcov : ∀ c ∈ loadClaimsFromFileFiltered result active t2,
      keyOf c ∈ loadAllClaimKeysFromDB (runIngest envOK result active t1 t1' bs store).store := by
    intro c hc
    obtain ⟨kc, hkc, hact, rfl⟩ := mem_loadClaimsFromFileFiltered.mp hc
    have hc1 : dbClaimOfRecord t1 kc.1 kc.2 ∈ loadClaimsFromFileFiltered result active t1 :=
      mem_loadClaimsFromFileFiltered.mpr ⟨kc, hkc, hact, rfl⟩
    have hkey : keyOf (dbClaimOfRecord t2 kc.1 kc.2) = keyOf (dbClaimOfRecord t1 kc.1 kc.2) := rfl
    rw [hkey]
    rcases insertDiffClaims_covers store (loadClaimsFromFileFiltered result active t1)
        (loadAllClaimKeysFromDB store) bs t1' (dbClaimOfRecord t1 kc.1 kc.2) hc1 with h | h
    · obtain ⟨t, ht, _⟩ := insertDiffClaims_growth envOK store
        (loadClaimsFromFileFiltered result active t1) (loadAllClaimKeysFromDB store) bs t1'
      show keyOf _ ∈ loadAllClaimKeysFromDB
        (insertDiffClaims envOK store (loadClaimsFromFileFiltered result active t1)
          (loadAllClaimKeysFromDB store) bs t1').store
      rw [ht]
      exact keys_mono_append _ _ _ h
    · exact h
  have hz := insertDiffClaims_no_new env2
      (runIngest envOK result active t1 t1' bs store).store
      (loadClaimsFromFileFiltered result active t2)
      (loadAllClaimKeysFromDB (runIngest envOK result active t1 t1' bs store).store) bs t2' hcov
  refine ⟨?_, ?_, hcov⟩
  · show (insertDiffClaims env2 _ _ _ bs t2').store = _
    rw [hz]
  · show (insertDiffClaims env2 _ _ _ bs t2').inserted = 0
    rw [hz]

/-- Claim C2: insert-only semantics.  Every run of `insertDiffClaims` only
appends to the store, leaving every persisted document (all its fields, the
`updated_at` timestamp included) untouched; and whenever a staged claim's
uniqueness tuple matches a persisted document, the conditional upsert
modelled by `execOp` is a no-op on the store and upserts nothing. -/
theorem upsert_never_overwrites (env : BulkEnv) (store claims : List DBClaim)
    (ek : List String) (bs : Int) (now : Nat) :
    (∃ t, (insertDiffClaims env store claims ek bs now).store = store ++ t)
    ∧ ∀ (s : List DBClaim) (c : DBClaim),
        s.any (tupleMatches c) = true → execOp s c = (s, 0) := by
  constructor
  · obtain ⟨t, ht, _⟩ := insertDiffClaims_growth env store claims ek bs now
    exact ⟨t, ht⟩
  · intro s c h
    unfold execOp
    rw [if_pos h]

/-- Witness for C2 at a concrete input: the store holding `dbExisting` is
untouched by an upsert of `dbIncoming`, which bears the same tuple. -/
theorem upsert_never_overwrites_witness :
    execOp [dbExisting] dbIncoming = ([dbExisting], 0) :=
  (upsert_never_overwrites envOK [dbExisting] [] [] 1 0).2 [dbExisting] dbIncoming (by decide)

/-- Claim C3: filter correctness.  The parse stage keeps exactly the dump
records whose provider is in the active set (records outside it are dropped
and never reach the diff or write stages), and every document in the store
after a run of the ingest pipeline either was already persisted or carries a
provider id obtained from a member of that run's active set. -/
theorem active_provider_filter (env : BulkEnv) (result : List (String × filecoinClaim))
    (active : List Nat) (pn inn : Nat) (bs : Int) (store : List DBClaim) :
    loadClaimsFromFileFiltered result active pn
      = (result.filter fun kc => decide (kc.2.Provider ∈ active)).map
          (fun kc => dbClaimOfRecord pn kc.1 kc.2)
    ∧ ∀ d ∈ (runIngest env result active pn inn bs store).store,
        d ∈ store ∨ ∃ p ∈ active, d.ProviderID = int64OfUInt64 p := by
  refine ⟨loadClaimsFromFileFiltered_eq result active pn, ?_⟩
  intro d hd
  have hq : ∀ c ∈ loadClaimsFromFileFiltered result active pn,
      (∃ p ∈ active, ({ c with UpdatedAt := inn } : DBClaim).ProviderID = int64OfUInt64 p) := by
    intro c hc
    obtain ⟨kc, _, hact, rfl⟩ := mem_loadClaimsFromFileFiltered.mp hc
    exact ⟨kc.2.Provider, hact, rfl⟩
  exact insertDiffClaims_prov env store (loadClaimsFromFileFiltered result active pn)
    (loadAllClaimKeysFromDB store) bs inn
    (fun d2 => ∃ p ∈ active, d2.ProviderID = int64OfUInt64 p) hq d hd

/-- Witness for C3 at a concrete input: the document inserted for `fcSample`
carries the provider id of the only active provider, `1001`. -/
theorem active_provider_filter_witness :
    ∃ p ∈ [1001], ({ dbClaimOfRecord 5 oneKey fcSample with UpdatedAt := 6 } : DBClaim).ProviderID
      = int64OfUInt64 p := by
  rcases (active_provider_filter envOK [(oneKey, fcSample)] [1001] 5 6 2 []).2
      { dbClaimOfRecord 5 oneKey fcSample with UpdatedAt := 6 } (by decide) with h | h
  · cases h
  · exact h

/-- Claim C6 (amended): batch-failure containment.  `insertDiffClaims` never
returns an error (a batch failure is never fatal); every staged claim is
submitted in some batch regardless of earlier batch errors (the flattened
submitted-batch trace is exactly the staged list); and the reported inserted
count — the sum of each batch's server-reported, credited upsert count, which
for an erroring batch is its partial count, or zero when the driver returns
no result — never exceeds the number of documents actually added to the
store. -/
theorem batch_failure_containment (env : BulkEnv) (store claims : List DBClaim)
    (ek : List String) (bs : Int) (now : Nat) :
    (insertDiffClaims env store claims ek bs now).err = none
    ∧ ((insertDiffClaims env store claims ek bs now).trace.map BatchRec.ops).flatten
        = stagedClaims ek now claims
    ∧ ∃ t, (insertDiffClaims env store claims ek bs now).store = store ++ t
        ∧ (insertDiffClaims env store claims ek bs now).inserted ≤ t.length :=
  ⟨insertDiffClaims_err_none env store claims ek bs now,
   insertDiffClaims_trace_eq env store claims ek bs now,
   insertDiffClaims_growth env store claims ek bs now⟩

/-- Counterexample to claim C6 as stated: in the concrete run `cexRun` the
only submitted batch reports an error (its second operation fails), yet the
server-reported upserted count of that failed batch, 1, is still credited to
the run's reported inserted count — the claim's assertion that a failed
batch's inserts are never credited is false on the code, whose comment says
it counts `UpsertedCount` to allow partial success. -/
theorem batch_failure_credit_cex :
    cexRun.trace.map BatchRec.err = [true] ∧ cexRun.inserted = 1 := by
  constructor
  · rfl
  · rfl

/-- Claim C7: active-provider filter error handling.  A `ChainHead` or
`StateListMiners` failure aborts `loadActiveProviders` with an error; once
both succeed the filter build always completes with a result; and a miner
whose power lookup fails, or whose power is positive but whose id
resolution (`StateLookupID` or `IDFromAddress`) fails, is skipped exactly:
removing it from the miner list leaves the built set unchanged. -/
theorem active_provider_error_handling (env : ChainEnv) (pre post : List String)
    (m : String) :
    (env.ChainHead = .error () → loadActiveProviders env = .error ())
    ∧ (env.StateListMiners = .error () → loadActiveProviders env = .error ())
    ∧ (∀ miners, env.ChainHead = .ok () → env.StateListMiners = .ok miners →
        loadActiveProviders env = .ok (miners.foldl (activeStep env) []))
    ∧ ((env.StateMinerPower m = .error ()
        ∨ ∃ mp, env.StateMinerPower m = .ok mp ∧ hasNonZeroPower mp = true
            ∧ (env.StateLookupID m = .error ()
               ∨ ∃ ia, env.StateLookupID m = .ok ia ∧ env.IDFromAddress ia = .error ()))
       → (pre ++ m :: post).foldl (activeStep env) [] = (pre ++ post).foldl (activeStep env) []) := by
  refine ⟨?_, ?_, ?_, ?_⟩
  · intro h
    unfold loadActiveProviders
    rw [h]
  · intro h
    unfold loadActiveProviders
    cases hh : env.ChainHead with
    | error e => rfl
    | ok u => rw [h]
  · intro miners hh hm
    unfold loadActiveProviders
    rw [hh, hm]
  · intro hfail
    have hstep : ∀ acc, activeStep env acc m = acc := by
      intro acc
      unfold activeStep
      rcases hfail with h | ⟨mp, hmp, hpow, hres⟩
      · rw [h]
      · rcases hres with h | ⟨ia, hia, hid⟩
        · simp [hmp, hpow, h]
        · simp [hmp, hpow, hia, hid]
    rw [List.foldl_append, List.foldl_append, List.foldl_cons, hstep]

/-- Witness for C7 at concrete inputs: a failing `ChainHead` aborts the
build, and dropping `minerBad`, whose power lookup fails in `cexChainSkip`,
does not change the built set. -/
theorem active_provider_error_handling_witness :
    loadActiveProviders cexChainHeadErr = .error ()
    ∧ ([minerOne] ++ minerBad :: []).foldl (activeStep cexChainSkip) []
        = ([minerOne] ++ []).foldl (activeStep cexChainSkip) [] :=
  ⟨(active_provider_error_handling cexChainHeadErr [] [] minerOne).1 rfl,
   (active_provider_error_handling cexChainSkip [minerOne] [] minerBad).2.2.2
     (Or.inl rfl)⟩

/-! ### Facts about the stability gate and the full run -/

theorem stabLoop_unstable (pollStat : Nat → StatRes) (s0 s1 s2 s3 : Int)
    (h1 : pollStat 1 = .ok s1) (h2 : pollStat 2 = .ok s2) (h3 : pollStat 3 = .ok s3)
    (n1 : s1 ≠ s0) (n2 : s2 ≠ s1) (n3 : s3 ≠ s2) :
    stabLoop pollStat stableCheckRetries 1 s0 = .ok false := by
  simp [stabLoop, stableCheckRetries, h1, h2, h3, n1, n2, n3]

theorem run_skip_of_never_stable (env : RunEnv) (store : List DBClaim)
    (s0 s1 s2 s3 : Int) (h0 : env.stat0 = .ok s0)
    (h1 : env.pollStat 1 = .ok s1) (h2 : env.pollStat 2 = .ok s2)
    (h3 : env.pollStat 3 = .ok s3)
    (n1 : s1 ≠ s0) (n2 : s2 ≠ s1) (n3 : s3 ≠ s2) :
    runFromTodayDumpOnce env store = ⟨false, false, false, store, 0, false⟩ := by
  have hs := stabLoop_unstable env.pollStat s0 s1 s2 s3 h1 h2 h3 n1 n2 n3
  simp [runFromTodayDumpOnce, h0, hs]

/-- Claim C5 (amended): stability gate.  When the dump file's size is
observed to differ at every pair of consecutive polls within the retry
budget of three retries, the file is never parsed in that run: the run
returns success with no parse attempted, no key scan, no store change and
the file left on disk.  A size change between poll 1 and poll 2 alone does
not skip the run: parsing proceeds once any later pair of consecutive polls
within the budget observes an unchanged size. -/
theorem stability_gate_never_stable (env : RunEnv) (store : List DBClaim)
    (s0 s1 s2 s3 : Int) (h0 : env.stat0 = .ok s0)
    (h1 : env.pollStat 1 = .ok s1) (h2 : env.pollStat 2 = .ok s2)
    (h3 : env.pollStat 3 = .ok s3)
    (n1 : s1 ≠ s0) (n2 : s2 ≠ s1) (n3 : s3 ≠ s2) :
    runFromTodayDumpOnce env store = ⟨false, false, false, store, 0, false⟩ :=
  run_skip_of_never_stable env store s0 s1 s2 s3 h0 h1 h2 h3 n1 n2 n3

/-- Witness for C5 (amended) at a concrete input: with sizes 10, 20, 30, 40
the run is skipped without parsing and the file stays on disk. -/
theorem stability_gate_never_stable_witness :
    runFromTodayDumpOnce cexEnvUnstable [] = ⟨false, false, false, [], 0, false⟩ :=
  stability_gate_never_stable cexEnvUnstable [] 10 20 30 40 rfl rfl rfl rfl
    (by decide) (by decide) (by decide)

/-- Counterexample to claim C5 as stated: in `cexEnvStabilizes` the dump
file's size changes between poll 1 and poll 2 (10 → 20) and again between
poll 2 and poll 3 (20 → 30), yet the run is not skipped — the size is then
observed unchanged (30 = 30) within the retry budget, the file is parsed and
afterwards deleted, refuting "a file observed to change size between two
consecutive polls is never parsed in that run". -/
theorem stability_gate_cex :
    cexEnvStabilizes.stat0 = StatRes.ok 10
    ∧ cexEnvStabilizes.pollStat 1 = StatRes.ok 20
    ∧ cexEnvStabilizes.pollStat 2 = StatRes.ok 30
    ∧ (runFromTodayDumpOnce cexEnvStabilizes []).parsed = true
    ∧ (runFromTodayDumpOnce cexEnvStabilizes []).deleted = true
    ∧ (runFromTodayDumpOnce cexEnvStabilizes []).isErr = false := by
  refine ⟨rfl, rfl, rfl, ?_, ?_, ?_⟩ <;> rfl

/-- Claim C8: skippable runs are not failures.  A run whose dump file is
absent, and a run whose dump file exists but whose size never stabilizes
within the retry budget, both return success without parsing the file,
without reaching the store, and without deleting the file. -/
theorem skippable_runs_not_failures (env : RunEnv) (store : List DBClaim) :
    (env.stat0 = StatRes.notExist →
      runFromTodayDumpOnce env store = ⟨false, false, false, store, 0, false⟩)
    ∧ (∀ s0 s1 s2 s3 : Int, env.stat0 = .ok s0 →
        env.pollStat 1 = .ok s1 → env.pollStat 2 = .ok s2 → env.pollStat 3 = .ok s3 →
        s1 ≠ s0 → s2 ≠ s1 → s3 ≠ s2 →
        runFromTodayDumpOnce env store = ⟨false, false, false, store, 0, false⟩) := by
  constructor
  · intro h
    simp [runFromTodayDumpOnce, h]
  · intro s0 s1 s2 s3 h0 h1 h2 h3 n1 n2 n3
    exact run_skip_of_never_stable env store s0 s1 s2 s3 h0 h1 h2 h3 n1 n2 n3

/-- Witness for C8 at concrete inputs: the file-absent run and the
never-stable run both return success untouched. -/
theorem skippable_runs_not_failures_witness :
    runFromTodayDumpOnce cexEnvNotFound [dbExisting]
      = ⟨false, false, false, [dbExisting], 0, false⟩
    ∧ runFromTodayDumpOnce cexEnvUnstable [dbExisting]
      = ⟨false, false, false, [dbExisting], 0, false⟩ :=
  ⟨(skippable_runs_not_failures cexEnvNotFound [dbExisting]).1 rfl,
   (skippable_runs_not_failures cexEnvUnstable [dbExisting]).2 10 20 30 40 rfl rfl rfl rfl
     (by decide) (by decide) (by decide)⟩

/-- Claim C9: an empty active-provider set short-circuits the run.  When the
dump file is present and stable and `loadActiveProviders` succeeds with an
empty set, the run returns success immediately: the file is neither parsed
nor deleted, the existing-key index is not loaded, and the store is
untouched, so the same file is retried on a later run. -/
theorem empty_active_set_short_circuits (env : RunEnv) (store : List DBClaim)
    (s0 : Int) (h0 : env.stat0 = .ok s0)
    (hstab : stabLoop env.pollStat stableCheckRetries 1 s0 = .ok true)
    (hact : loadActiveProviders env.chain = .ok []) :
    runFromTodayDumpOnce env store = ⟨false, false, false, store, 0, false⟩ := by
  simp [runFromTodayDumpOnce, h0, hstab, hact]

/-- Witness for C9 at a concrete input: a stable file with an empty miner
list leaves the run a silent no-op. -/
theorem empty_active_set_short_circuits_witness :
    runFromTodayDumpOnce cexEnvEmptyActive [dbExisting]
      = ⟨false, false, false, [dbExisting], 0, false⟩ :=
  empty_active_set_short_circuits cexEnvEmptyActive [dbExisting] 5 rfl rfl rfl

/-! ### Decimal representation round trip -/

theorem digitChar_facts (d : Nat) (h : d < 10) :
    (Nat.digitChar d).isDigit = true ∧ (Nat.digitChar d).toNat - 48 = d := by
  interval_cases d <;> exact ⟨by decide, by decide⟩

theorem natDigits_eq_toDigitsCore (fuel : Nat) :
    ∀ (n : Nat) (ds : List Char), n < fuel →
      Nat.toDigitsCore 10 fuel n ds = natDigits n ++ ds := by
  induction fuel with
  | zero => intro n ds h; omega
  | succ f ih =>
    intro n ds h
    by_cases h10 : n / 10 = 0
    · have hn : n < 10 := by
        by_contra hge
        have hdp : 0 < n / 10 := Nat.div_pos (by omega) (by omega)
        omega
      rw [natDigits, if_pos hn]
      simp only [Nat.toDigitsCore, h10, if_pos rfl]
      rw [Nat.mod_eq_of_lt hn]
      rfl
    · have hge : ¬ n < 10 := fun hlt => h10 (Nat.div_eq_of_lt hlt)
      have hpos : 0 < n := by omega
      have hlt : n / 10 < f := by
        have hd := Nat.div_lt_self hpos (by omega : 1 < 10)
        omega
      simp only [Nat.toDigitsCore, h10, if_neg h10]
      rw [ih (n / 10) (Nat.digitChar (n % 10) :: ds) hlt]
      conv_rhs => rw [natDigits, if_neg hge]
      simp [List.append_assoc]

theorem repr_data_eq_natDigits (n : Nat) : (Nat.repr n).data = natDigits n := by
  show (Nat.toDigits 10 n).asString.data = natDigits n
  rw [Nat.toDigits, natDigits_eq_toDigitsCore (n + 1) n [] (Nat.lt_succ_self n)]
  simp [List.asString]

theorem parseUintDigits_append (l1 l2 : List Char) :
    ∀ acc, parseUintDigits acc (l1 ++ l2)
      = (parseUintDigits acc l1).bind fun v => parseUintDigits v l2 := by
  induction l1 with
  | nil => intro acc; rfl
  | cons c cs ih =>
    intro acc
    by_cases h : c.isDigit = true
    · simp [parseUintDigits, h, ih]
    · simp [parseUintDigits, h]

theorem parseUintDigits_singleton (v : Nat) (c : Char) (h : c.isDigit = true) :
    parseUintDigits v [c] = some (v * 10 + (c.toNat - 48)) := by
  simp [parseUintDigits, h]

theorem parseUintDigits_natDigits (n : Nat) :
    ∀ acc, parseUintDigits acc (natDigits n)
      = some (acc * 10 ^ (natDigits n).length + n) := by
  induction n using Nat.strong_induction_on with
  | _ n ih =>
    intro acc
    by_cases h : n < 10
    · rw [natDigits, if_pos h]
      obtain ⟨hd, hv⟩ := digitChar_facts n h
      simp [parseUintDigits, hd, hv]
    · rw [natDigits, if_neg h]
      have hpos : 0 < n := by omega
      have hlt : n / 10 < n := Nat.div_lt_self hpos (by omega)
      obtain ⟨hd, hv⟩ := digitChar_facts (n % 10) (Nat.mod_lt n (by omega))
      rw [parseUintDigits_append, ih (n / 10) hlt acc, Option.some_bind,
        parseUintDigits_singleton _ _ hd, hv, List.length_append]
      simp only [List.length_singleton]
      congr 1
      have hdm : 10 * (n / 10) + n % 10 = n := Nat.div_add_mod n 10
      calc (acc * 10 ^ (natDigits (n / 10)).length + n / 10) * 10 + n % 10
          = acc * (10 ^ (natDigits (n / 10)).length * 10) + (10 * (n / 10) + n % 10) := by
            ring
        _ = acc * 10 ^ ((natDigits (n / 10)).length + 1) + n := by
            rw [← pow_succ, hdm]

theorem natDigits_ne_nil (n : Nat) : natDigits n ≠ [] := by
  rw [natDigits]
  by_cases h : n < 10 <;> simp [h]

theorem natDigits_all_digits (n : Nat) : ∀ c ∈ natDigits n, c.isDigit = true := by
  induction n using Nat.strong_induction_on with
  | _ n ih =>
    intro c hc
    rw [natDigits] at hc
    by_cases h : n < 10
    · rw [if_pos h] at hc
      rw [List.mem_singleton] at hc
      subst hc
      exact (digitChar_facts n h).1
    · rw [if_neg h] at hc
      rcases List.mem_append.mp hc with hc | hc
      · exact ih (n / 10) (Nat.div_lt_self (by omega) (by omega)) c hc
      · rw [List.mem_singleton] at hc
        subst hc
        exact (digitChar_facts (n % 10) (Nat.mod_lt n (by omega))).1



theorem isDigit_ne_sign (c : Char) (h : c.isDigit = true) :
    (c == '-') = false ∧ (c == '+') = false := by
  constructor
  · cases hb : c == '-' with
    | false => rfl
    | true =>
      have hc : c = '-' := eq_of_beq hb
      subst hc
      exact absurd h (by decide)
  · cases hb : c == '+' with
    | false => rfl
    | true =>
      have hc : c = '+' := eq_of_beq hb
      subst hc
      exact absurd h (by decide)

theorem ParseUint64_repr (n : Nat) (h : n < uint64Size) :
    ParseUint64 (Nat.repr n) = some n := by
  unfold ParseUint64
  rw [repr_data_eq_natDigits]
  cases hnd : natDigits n with
  | nil => exact absurd hnd (natDigits_ne_nil n)
  | cons c cs =>
    have hp := parseUintDigits_natDigits n 0
    rw [hnd] at hp
    dsimp only
    rw [hp]
    simp [h]

theorem ParseInt64_repr (n : Nat) (h : (n : Int) ≤ int64Max) :
    ParseInt64 (Nat.repr n) = some (n : Int) := by
  unfold ParseInt64
  rw [repr_data_eq_natDigits]
  cases hnd : natDigits n with
  | nil => exact absurd hnd (natDigits_ne_nil n)
  | cons c cs =>
    have hcd : c.isDigit = true :=
      natDigits_all_digits n c (hnd ▸ List.mem_cons_self c cs)
    obtain ⟨hm, hpl⟩ := isDigit_ne_sign c hcd
    have hp := parseUintDigits_natDigits n 0
    rw [hnd] at hp
    have hge : int64Min ≤ (n : Int) := le_trans (by decide) (Int.natCast_nonneg n)
    dsimp only
    simp only [hm, hpl, Bool.false_eq_true, if_false, hp]
    simp [hge, h]


/-- Claim C4: lenient decode equivalence.  A content identifier decodes to
the same stored value from the bare string form and from the object form
with the reserved key; and a non-negative in-range integer decodes to the
same value from the JSON number form and from the decimal numeric-string
form, for both the unsigned (`u64OrStr`) and signed (`i64OrStr`) field
codecs. -/
theorem lenient_decode_equivalence (s : String) (n : Nat) :
    cidOrObj.UnmarshalJSON (Json.str s) = Except.ok s
    ∧ cidOrObj.UnmarshalJSON (Json.obj [(slashKey, Json.str s)]) = Except.ok s
    ∧ (n < uint64Size →
        u64OrStr.UnmarshalJSON (Json.num (n : Int)) = Except.ok n
        ∧ u64OrStr.UnmarshalJSON (Json.str (Nat.repr n)) = Except.ok n)
    ∧ ((n : Int) ≤ int64Max →
        i64OrStr.UnmarshalJSON (Json.num (n : Int)) = Except.ok (n : Int)
        ∧ i64OrStr.UnmarshalJSON (Json.str (Nat.repr n)) = Except.ok (n : Int)) := by
  refine ⟨rfl, ?_, ?_, ?_⟩
  · simp [cidOrObj.UnmarshalJSON, jsonLookup, List.lookup]
  · intro hn
    constructor
    · have hb : 0 ≤ (n : Int) ∧ (n : Int) < (uint64Size : Int) :=
        ⟨Int.natCast_nonneg n, by exact_mod_cast hn⟩
      simp [u64OrStr.UnmarshalJSON, hb]
    · simp [u64OrStr.UnmarshalJSON, ParseUint64_repr n hn]
  · intro hn
    constructor
    · have hge : int64Min ≤ (n : Int) := le_trans (by decide) (Int.natCast_nonneg n)
      simp [i64OrStr.UnmarshalJSON, hge, hn]
    · simp [i64OrStr.UnmarshalJSON, ParseInt64_repr n hn]

/-- Witness for C4 at concrete inputs: the CID object form and both numeric
forms of `12345` decode to the expected values. -/
theorem lenient_decode_equivalence_witness :
    cidOrObj.UnmarshalJSON (Json.obj [(slashKey, Json.str sampleCid)]) = Except.ok sampleCid
    ∧ u64OrStr.UnmarshalJSON (Json.str (Nat.repr 12345)) = Except.ok 12345
    ∧ i64OrStr.UnmarshalJSON (Json.num 12345) = Except.ok 12345 :=
  ⟨(lenient_decode_equivalence sampleCid 12345).2.1,
   ((lenient_decode_equivalence sampleCid 12345).2.2.1 (by decide)).2,
   ((lenient_decode_equivalence sampleCid 12345).2.2.2 (by decide)).1⟩

/-- Claim C10: non-numeric claim-identifier keys do not fail the parse.  A
dump record whose top-level key cannot be scanned as a decimal integer is
still produced when its provider is active, with claim id `0`, rather than
being rejected. -/
theorem nonnumeric_claim_id_keys (result : List (String × filecoinClaim))
    (active : List Nat) (now : Nat) (k : String) (c : filecoinClaim)
    (hmem : (k, c) ∈ result) (hact : c.Provider ∈ active)
    (hscan : sscanInt64core k.data = none) :
    dbClaimOfRecord now k c ∈ loadClaimsFromFileFiltered result active now
    ∧ (dbClaimOfRecord now k c).ClaimID = 0 := by
  constructor
  · exact mem_loadClaimsFromFileFiltered.mpr ⟨(k, c), hmem, hact, rfl⟩
  · show fmtSscanInt64 k = 0
    unfold fmtSscanInt64
    rw [hscan]

/-- Witness for C10 at a concrete input: the record keyed `"abc"` is
produced with claim id `0`. -/
theorem nonnumeric_claim_id_keys_witness :
    dbClaimOfRecord 9 abcKey fcSample ∈ loadClaimsFromFileFiltered [(abcKey, fcSample)] [1001] 9
    ∧ (dbClaimOfRecord 9 abcKey fcSample).ClaimID = 0 :=
  nonnumeric_claim_id_keys [(abcKey, fcSample)] [1001] 9 abcKey fcSample
    (List.mem_singleton.mpr rfl) (List.mem_singleton.mpr rfl) rfl

/-- Witness for C1 at a concrete input: re-running the pipeline on the same
one-record dump inserts nothing the second time. -/
theorem ingest_idempotent_witness :
    (runIngest envOK [(oneKey, fcSample)] [1001] 7 8 2
        (runIngest envOK [(oneKey, fcSample)] [1001] 5 6 2 []).store).inserted = 0 :=
  (ingest_idempotent [(oneKey, fcSample)] [1001] [] 2 5 6 7 8 envOK).2.1
